import Mathlib

/-!
Shallow embedding of the llmtracker2_dev repository: the SQL plan-limit and
profile-creation functions, the row-level-security policies, the report
generation loop, the ChatGPT brand-analysis parser, the historical sample-data
service, the rate limiter and the input sanitizers, together with theorems
settling the frozen claims about them.

JavaScript strings are modelled as Lean String / List Char with ASCII case
mapping; JavaScript numbers that only ever hold integers are modelled as Int
or Nat, and the one genuinely fractional computation (usage percentages,
sentiment scores) as Rat.  Fallible steps (thrown exceptions, failed fetches)
are modelled with Option / Except.
-/

/-- JSON values, as produced by JSON.parse at runtime and by the jsonb
literals of the SQL migrations. -/
inductive Json where
  | null : Json
  | bool (b : Bool) : Json
  | num (n : Int) : Json
  | str (s : String) : Json
  | arr (elems : List Json) : Json
  | obj (fields : List (String × Json)) : Json

/-! ## get_plan_limits (supabase migration, part_000) -/

/-- Embedding of the SQL function public.get_plan_limits(plan_type text):
a CASE over the plan name returning a jsonb object of limits, with the empty
object in the ELSE branch. -/
def get_plan_limits (plan_type : String) : Json :=
  if plan_type = "trial" then
    Json.obj [("projects", Json.num 1), ("keywords", Json.num 10),
              ("reports", Json.num 5), ("competitors", Json.num 0)]
  else if plan_type = "basic" then
    Json.obj [("projects", Json.num 3), ("keywords", Json.num 25),
              ("reports", Json.num 15), ("competitors", Json.num 1)]
  else if plan_type = "gold" then
    Json.obj [("projects", Json.num 10), ("keywords", Json.num 50),
              ("reports", Json.num 50), ("competitors", Json.num (-1))]
  else
    Json.obj []

/-! ## handle_new_user and the profiles table defaults -/

/-- Row of auth.users as seen by the on_auth_user_created trigger. -/
structure AuthUser where
  id : Nat
  email : String
  metaFullName : Option String
  metaName : Option String

/-- Row of public.profiles.  Timestamps are integers in milliseconds. -/
structure NewProfileRow where
  id : Nat
  email : String
  full_name : Option String
  plan : String
  projects_limit : Int
  keywords_limit : Int
  reports_limit : Int
  trial_ends_at : Int
  created_at : Int

def msPerDay : Int := 86400000

/-- Embedding of public.handle_new_user(): the trigger inserts (id, email,
full_name) with full_name = COALESCE(meta full_name, meta name); every other
column takes its DDL default: plan app_role NOT NULL DEFAULT 'trial',
projects_limit DEFAULT 1, keywords_limit DEFAULT 10, reports_limit DEFAULT 5
(initial migration) and trial_ends_at DEFAULT (now() + interval '14 days')
(part_000 ALTER TABLE). -/
def handle_new_user (now : Int) (u : AuthUser) : NewProfileRow :=
  { id := u.id
    email := u.email
    full_name :=
      match u.metaFullName with
      | some s => some s
      | none => u.metaName
    plan := "trial"
    projects_limit := 1
    keywords_limit := 10
    reports_limit := 5
    trial_ends_at := now + 14 * msPerDay
    created_at := now }

/-! ## usePlanLimits helpers (part_006) -/

inductive UsageType where
  | projects | keywords | reports | competitors

/-- The limits state of the usePlanLimits hook (isLoading omitted). -/
structure PlanLimits where
  projects : Int
  keywords : Int
  reports : Int
  competitors : Int

/-- The Usage record passed to checkLimitReached. -/
structure Usage where
  projects : Int
  keywords : Int
  reports : Int
  competitors : Int

def PlanLimits.get (l : PlanLimits) : UsageType → Int
  | UsageType.projects => l.projects
  | UsageType.keywords => l.keywords
  | UsageType.reports => l.reports
  | UsageType.competitors => l.competitors

def Usage.get (u : Usage) : UsageType → Int
  | UsageType.projects => u.projects
  | UsageType.keywords => u.keywords
  | UsageType.reports => u.reports
  | UsageType.competitors => u.competitors

/-- Embedding of checkLimitReached: limit !== -1 && usage[type] >= limit. -/
def checkLimitReached (limits : PlanLimits) (usage : Usage) (t : UsageType) : Bool :=
  (limits.get t != -1) && decide (limits.get t ≤ usage.get t)

/-- Embedding of getUsagePercentage: 0 when limit === -1 (unlimited), else
Math.min((usage / limit) * 100, 100).  JavaScript numbers are modelled as
rationals. -/
def getUsagePercentage (usage limit : Rat) : Rat :=
  if limit = -1 then 0 else min (usage / limit * 100) 100

/-! ## sanitizeInput / sanitizeArray (src/lib/validation.ts) -/

/-- The characters String.prototype.trim removes: ECMAScript WhiteSpace and
LineTerminator code points. -/
def isJsWhitespace (c : Char) : Bool :=
  c == ' ' || c == Char.ofNat 9 || c == Char.ofNat 10 || c == Char.ofNat 11 ||
  c == Char.ofNat 12 || c == Char.ofNat 13 || c == Char.ofNat 160 ||
  c == Char.ofNat 0x1680 ||
  (decide (0x2000 ≤ c.toNat) && decide (c.toNat ≤ 0x200A)) ||
  c == Char.ofNat 0x2028 || c == Char.ofNat 0x2029 || c == Char.ofNat 0x202F ||
  c == Char.ofNat 0x205F || c == Char.ofNat 0x3000 || c == Char.ofNat 0xFEFF

/-- String.prototype.trim on a character list. -/
def jsTrim (l : List Char) : List Char :=
  ((l.dropWhile isJsWhitespace).reverse.dropWhile isJsWhitespace).reverse

/-- replace(/[<>]/g, '') on a character list. -/
def stripAngles (l : List Char) : List Char :=
  l.filter (fun c => !(c == '<' || c == '>'))

/-- Embedding of sanitizeInput: input.trim().replace(/[<>]/g, ''). -/
def sanitizeInput (s : String) : String :=
  String.mk (stripAngles (jsTrim s.data))

/-- Embedding of sanitizeArray: array.map(sanitizeInput).filter(len > 0). -/
def sanitizeArray (xs : List String) : List String :=
  (xs.map sanitizeInput).filter (fun s => decide (0 < s.length))

/-! ## Row-level-security policies (initial supabase migration) -/

structure ProjectRow where
  id : Nat
  user_id : Nat

structure KeywordRow where
  id : Nat
  project_id : Nat

structure ReportRow where
  id : Nat
  user_id : Nat
  project_id : Nat

structure ApiResponseRow where
  id : Nat
  report_id : Nat

/-- The database tables the RLS claim is about. -/
structure Db where
  projects : List ProjectRow
  keywords : List KeywordRow
  reports : List ReportRow
  apiResponses : List ApiResponseRow

inductive SqlOp where
  | sel | ins | upd | del

/-- Policies on public.projects: all four operations require
auth.uid() = user_id. -/
def projectsPolicy (uid : Nat) (_op : SqlOp) (r : ProjectRow) : Bool :=
  uid == r.user_id

/-- Policies on public.keywords: all four operations require EXISTS
(SELECT 1 FROM projects WHERE projects.id = keywords.project_id AND
projects.user_id = auth.uid()). -/
def keywordsPolicy (db : Db) (uid : Nat) (_op : SqlOp) (k : KeywordRow) : Bool :=
  db.projects.any (fun p => p.id == k.project_id && p.user_id == uid)

/-- Policies on public.reports: SELECT, INSERT and UPDATE require
auth.uid() = user_id; no DELETE policy exists, so RLS denies deletes. -/
def reportsPolicy (uid : Nat) (op : SqlOp) (r : ReportRow) : Bool :=
  match op with
  | SqlOp.del => false
  | _ => uid == r.user_id

/-- Policies on public.api_responses: SELECT and INSERT require EXISTS
(SELECT 1 FROM reports WHERE reports.id = api_responses.report_id AND
reports.user_id = auth.uid()); no UPDATE/DELETE policy exists. -/
def apiResponsesPolicy (db : Db) (uid : Nat) (op : SqlOp) (a : ApiResponseRow) : Bool :=
  match op with
  | SqlOp.sel => db.reports.any (fun rep => rep.id == a.report_id && rep.user_id == uid)
  | SqlOp.ins => db.reports.any (fun rep => rep.id == a.report_id && rep.user_id == uid)
  | _ => false

/-- The owner of a keyword row: the user of the project it references. -/
def keywordOwner (db : Db) (k : KeywordRow) : Option Nat :=
  (db.projects.find? (fun p => p.id == k.project_id)).map (fun p => p.user_id)

/-- The owner of an api_responses row: the user of the report it references. -/
def apiResponseOwner (db : Db) (a : ApiResponseRow) : Option Nat :=
  (db.reports.find? (fun rep => rep.id == a.report_id)).map (fun rep => rep.user_id)

/-! ## Report generation (part_008) and brand analysis (part_011) -/

/-- JS property lookup on a parsed JSON object; none models undefined.
Objects produced by JSON.parse have unique keys. -/
def jsLookup (fields : List (String × Json)) (key : String) : Option Json :=
  match fields.find? (fun kv => kv.1 == key) with
  | some kv => some kv.2
  | none => none

/-- Optional chaining v?.key: undefined and null give undefined, property
access on a non-object value gives undefined. -/
def jsOptChain (v : Option Json) (key : String) : Option Json :=
  match v with
  | some (Json.obj fields) => jsLookup fields key
  | _ => none

/-- Nullish coalescing v ?? fallback. -/
def jsCoalesce (v : Option Json) (fallback : Json) : Json :=
  match v with
  | none => fallback
  | some Json.null => fallback
  | some x => x

/-- JS truthiness of a possibly-undefined value. -/
def jsTruthy : Option Json → Bool
  | none => false
  | some Json.null => false
  | some (Json.bool b) => b
  | some (Json.num n) => n != 0
  | some (Json.str s) => !s.isEmpty
  | some (Json.arr _) => true
  | some (Json.obj _) => true

def jsonOfOptNat : Option Nat → Json
  | none => Json.null
  | some n => Json.num n

def toLowerL (l : List Char) : List Char := l.map Char.toLower

/-- Does the second list start with the first? -/
def startsWithL : List Char → List Char → Bool
  | [], _ => true
  | _ :: _, [] => false
  | a :: as, b :: bs => a == b && startsWithL as bs

/-- String.prototype.includes: needle occurs somewhere in hay. -/
def containsL (hay needle : List Char) : Bool :=
  match hay with
  | [] => needle.isEmpty
  | _ :: t => startsWithL needle hay || containsL t needle

/-- Case-insensitive version of startsWithL, for the /i regex flag over the
ASCII pattern literals of part_011. -/
def startsWithCI : List Char → List Char → Bool
  | [], _ => true
  | _ :: _, [] => false
  | a :: as, b :: bs => a.toLower == b.toLower && startsWithCI as bs

/-- String.prototype.indexOf, as the index of the first occurrence. -/
def indexOfAux (hay needle : List Char) (i : Nat) : Option Nat :=
  match hay with
  | [] => if needle.isEmpty then some i else none
  | _ :: t => if startsWithL needle hay then some i else indexOfAux t needle (i + 1)

def indexOfL (hay needle : List Char) : Option Nat :=
  indexOfAux hay needle 0

/-- parseInt on a non-empty digit string. -/
def natOfDigits (ds : List Char) : Nat :=
  ds.foldl (fun n c => 10 * n + (c.toNat - 48)) 0

def openBrace : Char := Char.ofNat 123
def closeBrace : Char := Char.ofNat 125

def firstIdxOf (c : Char) : List Char → Option Nat
  | [] => none
  | a :: t => if a == c then some 0 else (firstIdxOf c t).map (fun i => i + 1)

def lastIdxOf (c : Char) : List Char → Option Nat
  | [] => none
  | a :: t =>
    match lastIdxOf c t with
    | some i => some (i + 1)
    | none => if a == c then some 0 else none

/-- The leftmost match of the greedy brace regex of parseBrandAnalysis: it
starts at the first opening brace that precedes the last closing brace and
extends through that last closing brace; none when no such pair exists. -/
def jsonBlock (content : List Char) : Option (List Char) :=
  match lastIdxOf closeBrace content with
  | none => none
  | some j =>
    match firstIdxOf openBrace content with
    | none => none
    | some i => if i < j then some ((content.drop i).take (j + 1 - i)) else none

/-- One alternative of the extractPosition regex: the keyword kw at the head
of s, then whitespace, an optional colon, whitespace, and a non-empty digit
run. -/
def matchNumAfter (kw : List Char) (s : List Char) : Option Nat :=
  if startsWithCI kw s then
    let r1 := (s.drop kw.length).dropWhile isJsWhitespace
    let r2 :=
      match r1 with
      | ':' :: t => t
      | _ => r1
    let r3 := r2.dropWhile isJsWhitespace
    let ds := r3.takeWhile Char.isDigit
    if ds.isEmpty then none else some (natOfDigits ds)
  else none

/-- Leftmost-match scan of the extractPosition regex, trying the
alternatives position, rank, #, number at each start position. -/
def positionScan : List Char → Option Nat
  | [] => none
  | c :: t =>
    match matchNumAfter ("position".data) (c :: t) with
    | some n => some n
    | none =>
      match matchNumAfter ("rank".data) (c :: t) with
      | some n => some n
      | none =>
        match matchNumAfter ("#".data) (c :: t) with
        | some n => some n
        | none =>
          match matchNumAfter ("number".data) (c :: t) with
          | some n => some n
          | none => positionScan t

/-- Embedding of extractPosition (part_011). -/
def extractPosition (content : String) : Option Nat :=
  positionScan content.data

/-- Leftmost-match scan of the extractConfidence regex: the word confidence,
then any run of colons and whitespace, then a non-empty digit run. -/
def confidenceScan : List Char → Option Nat
  | [] => none
  | c :: t =>
    if startsWithCI ("confidence".data) (c :: t) then
      let r1 := ((c :: t).drop 10).dropWhile (fun ch => ch == ':' || isJsWhitespace ch)
      let ds := r1.takeWhile Char.isDigit
      if ds.isEmpty then confidenceScan t else some (natOfDigits ds)
    else confidenceScan t

/-- Embedding of extractConfidence (part_011), with its default of 50. -/
def extractConfidence (content : String) : Nat :=
  match confidenceScan content.data with
  | some n => n
  | none => 50

/-- Embedding of extractContext (part_011): 100 characters before and 200
after the first case-insensitive occurrence of the brand name, trimmed;
empty when the brand does not occur. -/
def extractContext (content brandName : String) : String :=
  match indexOfL (toLowerL content.data) (toLowerL brandName.data) with
  | none => ""
  | some brandIndex =>
    let start := brandIndex - 100
    let stop := min content.data.length (brandIndex + 200)
    String.mk (jsTrim ((content.data.drop start).take (stop - start)))

/-- A competitor mention as built by parseBrandAnalysis; name, mentioned and
position are copied without checks, so they can be any JSON value or
undefined (none). -/
structure CompetitorMention where
  name : Option Json
  mentioned : Option Json
  position : Option Json
  context : Json

/-- The result of parseBrandAnalysis, before rawResponse is attached. -/
structure BrandAnalysisCore where
  keyword : String
  brandMentioned : Json
  position : Json
  confidence : Json
  context : Json
  competitors : List CompetitorMention

/-- One step of parsedData.competitors.map: reading comp.name on a null
element throws a TypeError (modelled as Except.error); on an object it
copies name, mentioned, position and context-or-empty; on any other value
every property is undefined. -/
def compMention (comp : Json) : Except String CompetitorMention :=
  match comp with
  | Json.null => Except.error "TypeError"
  | Json.obj fields =>
    Except.ok
      { name := jsLookup fields "name"
        mentioned := jsLookup fields "mentioned"
        position := jsLookup fields "position"
        context :=
          match jsLookup fields "context" with
          | some v => if jsTruthy (some v) then v else Json.str ""
          | none => Json.str "" }
  | _ =>
    Except.ok
      { name := none, mentioned := none, position := none, context := Json.str "" }

/-- parsedData.competitors.map(...) inside the spread push: Array.map runs
left to right and the first throwing element aborts the call. -/
def mapCompetitors : List Json → Except String (List CompetitorMention)
  | [] => Except.ok []
  | c :: t =>
    match compMention c with
    | Except.error e => Except.error e
    | Except.ok m =>
      match mapCompetitors t with
      | Except.error e => Except.error e
      | Except.ok ms => Except.ok (m :: ms)

/-- The parsedData variable of parseBrandAnalysis: JSON.parse applied to the
matched brace block inside the try/catch.  jp models JSON.parse: none when
it throws (the exception the catch swallows), some fields when it returns an
object — a successful parse of a text that starts with an opening brace is
always an object.  parsedData stays the initial empty object when there is
no block or the parse threw. -/
def parsedDataOf (jp : List Char → Option (List (String × Json)))
    (content : String) : List (String × Json) :=
  match jsonBlock content.data with
  | none => []
  | some block =>
    match jp block with
    | some fields => fields
    | none => []

/-- The competitors accumulation of parseBrandAnalysis: map over
parsedData.competitors when it is an array (arrays are always truthy), and
the empty list otherwise.  The mapping happens outside the try/catch, so a
TypeError thrown on a null element escapes. -/
def competitorsField (pd : List (String × Json)) : Except String (List CompetitorMention) :=
  match jsLookup pd "competitors" with
  | some (Json.arr elems) => mapCompetitors elems
  | _ => Except.ok []

/-- Embedding of parseBrandAnalysis (part_011).  The four ??-defaulted field
reads are pure, so gathering them after the competitor mapping is
observationally the order of the source. -/
def parseBrandAnalysis (jp : List Char → Option (List (String × Json)))
    (content keyword brandName : String) : Except String BrandAnalysisCore :=
  match competitorsField (parsedDataOf jp content) with
  | Except.error e => Except.error e
  | Except.ok comps =>
    Except.ok
      { keyword := keyword
        brandMentioned :=
          jsCoalesce (jsOptChain (jsLookup (parsedDataOf jp content) "targetBrand") "mentioned")
            (Json.bool (containsL (toLowerL content.data) (toLowerL brandName.data)))
        position :=
          jsCoalesce (jsOptChain (jsLookup (parsedDataOf jp content) "targetBrand") "position")
            (jsonOfOptNat (extractPosition content))
        confidence :=
          jsCoalesce (jsLookup (parsedDataOf jp content) "confidence")
            (Json.num (extractConfidence content))
        context :=
          jsCoalesce (jsOptChain (jsLookup (parsedDataOf jp content) "targetBrand") "context")
            (Json.str (extractContext content brandName))
        competitors := comps }

/-- A brand analysis result with the raw LLM response attached, as returned
by analyzeBrandMention. -/
structure BrandAnalysisResult extends BrandAnalysisCore where
  rawResponse : String

/-- Embedding of analyzeBrandMention (part_011): llm models the fetch to the
chat completion endpoint (none = network/API error thrown); on success the
content is parsed and rawResponse attached; a parse exception propagates as
a thrown error.  Both failure modes surface to the caller as none. -/
def analyzeBrandMention (jp : List Char → Option (List (String × Json)))
    (llm : String → Option String) (keyword brandName : String) :
    Option BrandAnalysisResult :=
  match llm keyword with
  | none => none
  | some content =>
    match parseBrandAnalysis jp content keyword brandName with
    | Except.ok core => some { toBrandAnalysisCore := core, rawResponse := content }
    | Except.error _ => none

/-- The project fields handleGenerateReport reads. -/
structure Project where
  id : Nat
  user_id : Nat

/-- An api_responses insert issued by the report loop. -/
structure ApiResponseInsert where
  report_id : Nat
  keyword : String
  provider : String
  rawResponse : String

/-- The observable outcome of the report loop: the keywords passed to
analyzeBrandMention in order, the accumulated results, and the
api_responses inserts. -/
structure GenReportOutcome where
  calls : List String
  results : List BrandAnalysisResult
  apiRows : List ApiResponseInsert

/-- The for-loop of handleGenerateReport: each keyword is analyzed inside a
try/catch, so a failed analysis only skips that keyword's result and
insert. -/
def analyzeLoop (analyze : String → Option BrandAnalysisResult) (reportId : Nat) :
    List String → GenReportOutcome
  | [] => { calls := [], results := [], apiRows := [] }
  | kw :: rest =>
    let tail := analyzeLoop analyze reportId rest
    match analyze kw with
    | some r =>
      { calls := kw :: tail.calls
        results := r :: tail.results
        apiRows :=
          { report_id := reportId, keyword := kw, provider := "openai",
            rawResponse := r.rawResponse } :: tail.apiRows }
    | none =>
      { calls := kw :: tail.calls, results := tail.results, apiRows := tail.apiRows }

/-- Embedding of handleGenerateReport (part_008): early return when there is
no project or no keywords or a blank API key; then the report row is
inserted (insertReport none models a database error, caught by the outer
catch before any analysis), and each keyword is processed by the loop. -/
def handleGenerateReport (project : Option Project) (keywords : List String)
    (apiKey : String) (insertReport : Option Nat)
    (analyze : String → Option BrandAnalysisResult) : Option GenReportOutcome :=
  match project with
  | none => none
  | some _ =>
    if keywords.isEmpty then none
    else if (jsTrim apiKey.data).isEmpty then none
    else
      match insertReport with
      | none => none
      | some reportId => some (analyzeLoop analyze reportId keywords)

/-! ## HistoricalTrackingService (second half of validation.ts) -/

inductive TimeRange where
  | d7 | d30 | d90 | y1

/-- The days lookup table of getHistoricalData. -/
def daysOf : TimeRange → Nat
  | TimeRange.d7 => 7
  | TimeRange.d30 => 30
  | TimeRange.d90 => 90
  | TimeRange.y1 => 365

/-- One generated sample data point.  Dates are day numbers. -/
structure TrendPoint where
  date : Int
  position : Int
  mentions : Int
  sentiment : Rat
  competitor : String

/-- One entry of getHistoricalData's result. -/
structure CompetitorTrendData where
  competitor : String
  data : List TrendPoint
  currentPosition : Int
  positionChange : Int
  trendDirection : String

/-- A row of the historical_snapshots table the service talks about but
never reads. -/
structure HistoricalSnapshot where
  project_id : String
  keyword_id : String
  competitor_name : String
  position : Int

/-- One iteration of generateSampleHistoricalData's while loop.  The
Math.sin/Math.random variations are floating point noise; they are
abstracted as integer-valued (after Math.round) and rational-valued oracles
of the competitor index and the day offset, with the base values and the
clamping kept explicit. -/
def samplePoint (pv mv : Nat → Nat → Int) (sv : Nat → Nat → Rat)
    (index : Nat) (startDay current : Int) (competitor : String) : TrendPoint :=
  let dayOffset := (current - startDay).toNat
  { date := current
    position := max 1 (3 + (index : Int) + pv index dayOffset)
    mentions := max 0 (50 + 20 * (index : Int) + mv index dayOffset)
    sentiment := max 0 (min 1 ((6 : Rat) / 10 + (index : Rat) / 10 + sv index dayOffset))
    competitor := competitor }

/-- The while loop of generateSampleHistoricalData, unrolled over its
iteration count: push a point for the current day, then advance one day. -/
def genPoints (pv mv : Nat → Nat → Int) (sv : Nat → Nat → Rat)
    (index : Nat) (startDay : Int) (competitor : String) :
    Nat → Int → List TrendPoint
  | 0, _ => []
  | n + 1, current =>
    samplePoint pv mv sv index startDay current competitor ::
      genPoints pv mv sv index startDay competitor n (current + 1)

/-- Embedding of generateSampleHistoricalData: while (current <= endDate)
push point, current += 1 day — one point per day from startDay through
endDay inclusive. -/
def generateSampleHistoricalData (pv mv : Nat → Nat → Int) (sv : Nat → Nat → Rat)
    (startDay endDay : Int) (competitor : String) (index : Nat) : List TrendPoint :=
  if startDay ≤ endDay then
    genPoints pv mv sv index startDay competitor ((endDay - startDay).toNat + 1) startDay
  else []

/-- JS x || d on numbers: 0 is falsy. -/
def jsOrInt (v : Option Int) (d : Int) : Int :=
  match v with
  | none => d
  | some x => if x == 0 then d else x

/-- Embedding of HistoricalTrackingService.getHistoricalData.  It receives
the stored snapshots (the table a real implementation would query, per the
source comment) but generates sample data instead: a start date today minus
the timeRange's days, the default competitor names when the argument is
undefined, and per competitor the generated series plus current/previous
position bookkeeping (data[length-1] and data[length-8] — a negative JS
index reads undefined). -/
def getHistoricalData (store : List HistoricalSnapshot)
    (pv mv : Nat → Nat → Int) (sv : Nat → Nat → Rat) (today : Int)
    (projectId keywordId : String) (timeRange : TimeRange)
    (competitors : Option (List String)) : List CompetitorTrendData :=
  let startDay := today - (daysOf timeRange : Int)
  let sampleCompetitors :=
    competitors.getD ["Competitor A", "Competitor B", "Competitor C"]
  sampleCompetitors.enum.map (fun ic =>
    let index := ic.1
    let competitor := ic.2
    let data := generateSampleHistoricalData pv mv sv startDay today competitor index
    let currentPosition :=
      jsOrInt ((if data.length = 0 then none else data[data.length - 1]?).map
        TrendPoint.position) 1
    let previousPosition :=
      jsOrInt ((if data.length < 8 then none else data[data.length - 8]?).map
        TrendPoint.position) currentPosition
    let positionChange := previousPosition - currentPosition
    { competitor := competitor
      data := data
      currentPosition := currentPosition
      positionChange := positionChange
      trendDirection :=
        if positionChange > 0 then "up"
        else if positionChange < 0 then "down"
        else "stable" })

/-! ## createRateLimiter (src/lib/validation.ts) -/

/-- The Map backing a limiter returned by createRateLimiter, as a function
from keys to their recorded timestamps (a missing key reads as the empty
list the closure installs). -/
def RLState : Type := String → List Int

/-- One call of the limiter closure at time now: compute
windowStart = now - windowMs, keep the stored timestamps with
time > windowStart, refuse (without writing) when maxRequests or more
remain, otherwise store the pruned list with now appended and allow. -/
def rlStep (maxRequests : Nat) (windowMs : Int) (st : RLState) (key : String)
    (now : Int) : Bool × RLState :=
  let recent := (st key).filter (fun u => decide (now - windowMs < u))
  if maxRequests ≤ recent.length then (false, st)
  else (true, fun k => if k = key then recent ++ [now] else st k)

/-- Run the limiter over a sequence of (key, call time) pairs, collecting
the returned booleans in order. -/
def rlRun (maxRequests : Nat) (windowMs : Int) (st : RLState) :
    List (String × Int) → List Bool × RLState
  | [] => ([], st)
  | (k, t) :: rest =>
    let step := rlStep maxRequests windowMs st k t
    let tail := rlRun maxRequests windowMs step.2 rest
    (step.1 :: tail.1, tail.2)

/-- The claim's reference behaviour: a call is allowed iff strictly fewer
than maxRequests earlier allowed calls for the same key have timestamps
within the preceding windowMs; h accumulates every allowed timestamp per
key, never pruning. -/
def rlSpec (maxRequests : Nat) (windowMs : Int) (h : String → List Int) :
    List (String × Int) → List Bool
  | [] => []
  | (k, t) :: rest =>
    let ok := decide ((h k).countP (fun u => decide (t - windowMs < u)) < maxRequests)
    ok :: rlSpec maxRequests windowMs
      (if ok then fun k2 => if k2 = k then h k2 ++ [t] else h k2 else h) rest

/-- The timestamps of the allowed calls for a key, read off a trace and its
per-call results. -/
def allowedTimes (key : String) : List (String × Int) → List Bool → List Int
  | [], _ => []
  | _ :: _, [] => []
  | (k, t) :: rest, b :: bs =>
    if b = true ∧ k = key then t :: allowedTimes key rest bs
    else allowedTimes key rest bs

/-! # Theorems -/

/-- C1: get_plan_limits returns projects 1 / keywords 10 / reports 5 /
competitors 0 for 'trial', then 3, 25, 15, 1 for 'basic', then 10, 50, 50,
minus one for 'gold',
and the empty jsonb object for every other plan value. -/
theorem get_plan_limits_spec :
    get_plan_limits "trial" =
      Json.obj [("projects", Json.num 1), ("keywords", Json.num 10),
                ("reports", Json.num 5), ("competitors", Json.num 0)] ∧
    get_plan_limits "basic" =
      Json.obj [("projects", Json.num 3), ("keywords", Json.num 25),
                ("reports", Json.num 15), ("competitors", Json.num 1)] ∧
    get_plan_limits "gold" =
      Json.obj [("projects", Json.num 10), ("keywords", Json.num 50),
                ("reports", Json.num 50), ("competitors", Json.num (-1))] ∧
    ∀ p : String, p ≠ "trial" → p ≠ "basic" → p ≠ "gold" →
      get_plan_limits p = Json.obj [] := by
  refine ⟨rfl, rfl, rfl, ?_⟩
  intro p h1 h2 h3
  simp [get_plan_limits, h1, h2, h3]

/-- Witness for C1: an unrecognized plan name gets the empty object. -/
theorem get_plan_limits_spec_witness :
    get_plan_limits "enterprise" = Json.obj [] :=
  get_plan_limits_spec.2.2.2 "enterprise" (by decide) (by decide) (by decide)

/-- C7: every profile row created by the on_auth_user_created trigger has
plan 'trial', projects_limit 1, keywords_limit 10, reports_limit 5, and
trial_ends_at equal to the creation time plus 14 days. -/
theorem handle_new_user_defaults (now : Int) (u : AuthUser) :
    (handle_new_user now u).plan = "trial" ∧
    (handle_new_user now u).projects_limit = 1 ∧
    (handle_new_user now u).keywords_limit = 10 ∧
    (handle_new_user now u).reports_limit = 5 ∧
    (handle_new_user now u).trial_ends_at =
      (handle_new_user now u).created_at + 14 * msPerDay :=
  ⟨rfl, rfl, rfl, rfl, rfl⟩

/-- C9 counterexample: getUsagePercentage does not always land in [0, 100];
at usage 1 and limit -2 (not the -1 sentinel) it returns -50. -/
theorem getUsagePercentage_out_of_range :
    getUsagePercentage 1 (-2) = -50 ∧ getUsagePercentage 1 (-2) < 0 := by
  constructor <;> norm_num [getUsagePercentage]

/-- C9 (amended): checkLimitReached is true iff the fetched limit is not -1
and usage has reached it, hence always false at the -1 sentinel; and
getUsagePercentage is 0 at limit -1 and lies in [0, 100] whenever the limit
is the -1 sentinel or positive and usage is nonnegative. -/
theorem usage_limit_checks (limits : PlanLimits) (usage : Usage) (t : UsageType)
    (u l : Rat) (hu : 0 ≤ u) (hl : l = -1 ∨ 0 < l) :
    (checkLimitReached limits usage t = true ↔
      (limits.get t ≠ -1 ∧ limits.get t ≤ usage.get t)) ∧
    (limits.get t = -1 → checkLimitReached limits usage t = false) ∧
    (0 ≤ getUsagePercentage u l ∧ getUsagePercentage u l ≤ 100) ∧
    getUsagePercentage u (-1) = 0 := by
  refine ⟨?_, ?_, ?_, ?_⟩
  · simp [checkLimitReached, bne_iff_ne]
  · intro h
    simp [checkLimitReached, h]
  · rcases hl with h | h
    · subst h
      simp [getUsagePercentage]
    · have hne : l ≠ -1 := by
        intro hc
        rw [hc] at h
        norm_num at h
      constructor
      · rw [getUsagePercentage, if_neg hne]
        have h0 : 0 ≤ u / l * 100 := by positivity
        exact le_min h0 (by norm_num)
      · rw [getUsagePercentage, if_neg hne]
        exact min_le_right _ _
  · simp [getUsagePercentage]

/-- Witness for C9 (amended): concrete limits, usage 5 of limit 10. -/
theorem usage_limit_checks_witness :
    (0 ≤ getUsagePercentage 5 10 ∧ getUsagePercentage 5 10 ≤ 100) ∧
    getUsagePercentage 5 (-1) = 0 :=
  ⟨(usage_limit_checks ⟨1, 10, 5, 0⟩ ⟨0, 0, 0, 0⟩ UsageType.projects 5 10
      (by norm_num) (Or.inr (by norm_num))).2.2.1,
   (usage_limit_checks ⟨1, 10, 5, 0⟩ ⟨0, 0, 0, 0⟩ UsageType.projects 5 10
      (by norm_num) (Or.inr (by norm_num))).2.2.2⟩

/-- C10: sanitizeInput output never contains an angle bracket, and every
element of sanitizeArray's output is a non-empty string with no angle
bracket. -/
theorem sanitize_no_angle_brackets :
    (∀ s : String, '<' ∉ (sanitizeInput s).data ∧ '>' ∉ (sanitizeInput s).data) ∧
    (∀ xs : List String, ∀ x ∈ sanitizeArray xs,
      x ≠ "" ∧ '<' ∉ x.data ∧ '>' ∉ x.data) := by
  have hbase : ∀ s : String, '<' ∉ (sanitizeInput s).data ∧ '>' ∉ (sanitizeInput s).data := by
    intro s
    constructor <;>
    · intro hmem
      have := List.of_mem_filter (p := fun c => !(c == '<' || c == '>')) hmem
      simp at this
  refine ⟨hbase, ?_⟩
  intro xs x hx
  have hx' := List.mem_filter.mp hx
  rcases List.mem_map.mp hx'.1 with ⟨y, _, hy⟩
  have hlen : 0 < x.length := by
    have := hx'.2
    simpa using this
  refine ⟨?_, ?_, ?_⟩
  · intro hc
    rw [hc] at hlen
    simp [String.length] at hlen
  · rw [← hy]; exact (hbase y).1
  · rw [← hy]; exact (hbase y).2

/-- Witness for C10: sanitizing a concrete array keeps only the cleaned
non-empty entry. -/
theorem sanitize_no_angle_brackets_witness :
    "ab" ∈ sanitizeArray ["<a>b<", "  "] ∧
    ("ab" ≠ "" ∧ '<' ∉ "ab".data ∧ '>' ∉ "ab".data) :=
  ⟨by decide, sanitize_no_angle_brackets.2 ["<a>b<", "  "] "ab" (by decide)⟩

/-- In a table whose ids are pairwise distinct, an EXISTS over
id = target AND user = uid forces the looked-up owner to be uid. -/
theorem find_user_of_any {α : Type} (l : List α) (idf uf : α → Nat)
    (target uid : Nat) (hnd : (l.map idf).Nodup)
    (h : l.any (fun x => idf x == target && uf x == uid) = true) :
    (l.find? (fun x => idf x == target)).map uf = some uid := by
  rcases List.any_eq_true.mp h with ⟨p, hp, hcond⟩
  rw [Bool.and_eq_true] at hcond
  have hid' : idf p = target := by simpa using hcond.1
  have huser' : uf p = uid := by simpa using hcond.2
  cases hfind : l.find? (fun x => idf x == target) with
  | none =>
    have := List.find?_eq_none.mp hfind p hp
    simp [hid'] at this
  | some q =>
    have hqpred := List.find?_some hfind
    have hqmem : q ∈ l := List.mem_of_find?_eq_some hfind
    have hqid : idf q = target := by simpa using hqpred
    have hpq : p = q :=
      List.inj_on_of_nodup_map hnd hp hqmem (by rw [hid', hqid])
    simp [← hpq, huser']

/-- C2: whenever an RLS policy of projects, keywords, reports or
api_responses permits uid to select, insert, update or delete a row, that
row is owned by uid — directly for projects and reports, through the owning
project for keywords, and through the owning report for api_responses; so
no user can read or modify another user's row.  Primary-key uniqueness of
project and report ids is assumed. -/
theorem rls_owner_isolation (db : Db) (uid : Nat) (op : SqlOp)
    (hproj : (db.projects.map ProjectRow.id).Nodup)
    (hrep : (db.reports.map ReportRow.id).Nodup) :
    (∀ r : ProjectRow, projectsPolicy uid op r = true → r.user_id = uid) ∧
    (∀ k : KeywordRow, keywordsPolicy db uid op k = true →
      keywordOwner db k = some uid) ∧
    (∀ r : ReportRow, reportsPolicy uid op r = true → r.user_id = uid) ∧
    (∀ a : ApiResponseRow, apiResponsesPolicy db uid op a = true →
      apiResponseOwner db a = some uid) := by
  refine ⟨?_, ?_, ?_, ?_⟩
  · intro r h
    have : uid = r.user_id := by simpa [projectsPolicy] using h
    exact this.symm
  · intro k h
    exact find_user_of_any db.projects ProjectRow.id ProjectRow.user_id
      k.project_id uid hproj h
  · intro r h
    cases op <;> simp [reportsPolicy] at h <;> exact h.symm
  · intro a h
    cases op <;> simp [apiResponsesPolicy] at h
    case sel =>
      exact find_user_of_any db.reports ReportRow.id ReportRow.user_id
        a.report_id uid hrep (by simpa [List.any_eq_true] using h)
    case ins =>
      exact find_user_of_any db.reports ReportRow.id ReportRow.user_id
        a.report_id uid hrep (by simpa [List.any_eq_true] using h)

/-- A concrete database for the RLS witness: user 10 owns project 1, which
has keyword 5; user 10 owns report 7, which has api_response 9. -/
def rlsSampleDb : Db :=
  { projects := [{ id := 1, user_id := 10 }, { id := 2, user_id := 11 }]
    keywords := [{ id := 5, project_id := 1 }]
    reports := [{ id := 7, user_id := 10, project_id := 1 }]
    apiResponses := [{ id := 9, report_id := 7 }] }

/-- Witness for C2: in the sample database the keyword policy only fires for
the owner of the keyword's project. -/
theorem rls_owner_isolation_witness :
    keywordOwner rlsSampleDb { id := 5, project_id := 1 } = some 10 :=
  (rls_owner_isolation rlsSampleDb 10 SqlOp.sel (by decide) (by decide)).2.1
    { id := 5, project_id := 1 } (by decide)

/-- Per-keyword behaviour of the report loop. -/
theorem analyzeLoop_spec (analyze : String → Option BrandAnalysisResult)
    (reportId : Nat) (kws : List String) :
    (analyzeLoop analyze reportId kws).calls = kws ∧
    (analyzeLoop analyze reportId kws).results = kws.filterMap analyze ∧
    (analyzeLoop analyze reportId kws).apiRows.map ApiResponseInsert.keyword =
      kws.filter (fun kw => (analyze kw).isSome) ∧
    (analyzeLoop analyze reportId kws).apiRows.map ApiResponseInsert.report_id =
      (kws.filter (fun kw => (analyze kw).isSome)).map (fun _ => reportId) ∧
    (analyzeLoop analyze reportId kws).apiRows.length =
      (analyzeLoop analyze reportId kws).results.length := by
  induction kws with
  | nil => exact ⟨rfl, rfl, rfl, rfl, rfl⟩
  | cons kw rest ih =>
    rcases ih with ⟨ih1, ih2, ih3, ih4, ih5⟩
    cases h : analyze kw <;>
      simp [analyzeLoop, h, ih1, ih2, ih3, ih4, ih5, List.filterMap_cons]

/-- C3: for a project with a non-empty keyword list (and a non-blank API key
and a successful report insert), handleGenerateReport calls
analyzeBrandMention exactly once per keyword in list order, and each
successful call contributes exactly one result and exactly one
api_responses insert carrying that keyword and the report id. -/
theorem handleGenerateReport_per_keyword (p : Project) (keywords : List String)
    (apiKey : String) (reportId : Nat)
    (analyze : String → Option BrandAnalysisResult)
    (hne : keywords ≠ []) (hkey : jsTrim apiKey.data ≠ []) :
    ∃ out, handleGenerateReport (some p) keywords apiKey (some reportId) analyze =
        some out ∧
      out.calls = keywords ∧
      out.results = keywords.filterMap analyze ∧
      out.apiRows.map ApiResponseInsert.keyword =
        keywords.filter (fun kw => (analyze kw).isSome) ∧
      out.apiRows.map ApiResponseInsert.report_id =
        (keywords.filter (fun kw => (analyze kw).isSome)).map (fun _ => reportId) ∧
      out.apiRows.length = out.results.length := by
  refine ⟨analyzeLoop analyze reportId keywords, ?_, analyzeLoop_spec analyze reportId keywords⟩
  have h1 : keywords.isEmpty = false := by
    cases keywords with
    | nil => exact absurd rfl hne
    | cons a t => rfl
  have h2 : (jsTrim apiKey.data).isEmpty = false := by
    cases hj : jsTrim apiKey.data with
    | nil => exact absurd hj hkey
    | cons a t => rfl
  simp [handleGenerateReport, h1, h2]

/-- Witness for C3: one keyword whose analysis fails still produces a call
entry, and no rows. -/
theorem handleGenerateReport_per_keyword_witness :
    ∃ out, handleGenerateReport (some { id := 1, user_id := 2 }) ["alpha"] "sk-key"
        (some 42) (fun _ => none) = some out ∧
      out.calls = ["alpha"] ∧
      out.results = (["alpha"].filterMap (fun _ => (none : Option BrandAnalysisResult))) ∧
      out.apiRows.map ApiResponseInsert.keyword =
        (["alpha"].filter (fun kw => ((fun _ => (none : Option BrandAnalysisResult)) kw).isSome)) ∧
      out.apiRows.map ApiResponseInsert.report_id =
        ((["alpha"].filter (fun kw => ((fun _ => (none : Option BrandAnalysisResult)) kw).isSome)).map (fun _ => 42)) ∧
      out.apiRows.length = out.results.length :=
  handleGenerateReport_per_keyword { id := 1, user_id := 2 } ["alpha"] "sk-key" 42
    (fun _ => none) (by decide) (by decide)

/-- C4 counterexample: parseBrandAnalysis is not total.  On a response whose
brace block is the valid JSON object with a competitors array containing
null, JSON.parse succeeds (the oracle returns exactly that object), and the
competitor mapping — outside the try/catch — reads .name on null and throws
a TypeError. -/
theorem parseBrandAnalysis_throws_on_null_competitor :
    parseBrandAnalysis (fun _ => some [("competitors", Json.arr [Json.null])])
      "\x7b\"competitors\":[null]\x7d" "kw" "Brand" = Except.error "TypeError" := by
  rfl

/-- Mapping a competitors array with no null element never throws. -/
theorem mapCompetitors_ok (elems : List Json) (h : Json.null ∉ elems) :
    ∃ cs, mapCompetitors elems = Except.ok cs := by
  induction elems with
  | nil => exact ⟨[], rfl⟩
  | cons c t ih =>
    have hc : c ≠ Json.null := fun hc => h (hc ▸ List.mem_cons_self c t)
    have ht : Json.null ∉ t := fun hm => h (List.mem_cons_of_mem c hm)
    rcases ih ht with ⟨cs, hcs⟩
    have hm : ∃ m, compMention c = Except.ok m := by
      cases c with
      | null => exact absurd rfl hc
      | bool b => exact ⟨_, rfl⟩
      | num n => exact ⟨_, rfl⟩
      | str s => exact ⟨_, rfl⟩
      | arr xs => exact ⟨_, rfl⟩
      | obj fs => exact ⟨_, rfl⟩
    rcases hm with ⟨m, hmc⟩
    exact ⟨m :: cs, by simp [mapCompetitors, hmc, hcs]⟩

/-- C4 (amended): parseBrandAnalysis returns a result for every response
string, keyword and brand name, provided the parsed block's competitors
array (when present) has no null element; in particular every failure to
extract or JSON-parse a brace block is caught, with the total text
extractors as fallback. -/
theorem parseBrandAnalysis_total_amended
    (jp : List Char → Option (List (String × Json)))
    (content keyword brandName : String)
    (h : ∀ elems, jsLookup (parsedDataOf jp content) "competitors" =
      some (Json.arr elems) → Json.null ∉ elems) :
    ∃ r, parseBrandAnalysis jp content keyword brandName = Except.ok r ∧
      r.keyword = keyword := by
  have hok : ∃ cs, competitorsField (parsedDataOf jp content) = Except.ok cs := by
    unfold competitorsField
    cases hlk : jsLookup (parsedDataOf jp content) "competitors" with
    | none => exact ⟨[], rfl⟩
    | some v =>
      cases v with
      | null => exact ⟨[], rfl⟩
      | bool b => exact ⟨[], rfl⟩
      | num n => exact ⟨[], rfl⟩
      | str s => exact ⟨[], rfl⟩
      | obj fs => exact ⟨[], rfl⟩
      | arr elems => exact mapCompetitors_ok elems (h elems hlk)
  rcases hok with ⟨cs, hcs⟩
  unfold parseBrandAnalysis
  rw [hcs]
  exact ⟨_, rfl, rfl⟩

/-- Witness for C4 (amended): a braceless response parses to a result with
the requested keyword. -/
theorem parseBrandAnalysis_total_amended_witness :
    ∃ r, parseBrandAnalysis (fun _ => none) "no braces here" "kw" "Brand" =
        Except.ok r ∧ r.keyword = "kw" :=
  parseBrandAnalysis_total_amended (fun _ => none) "no braces here" "kw" "Brand"
    (by
      intro elems he
      rw [show jsLookup (parsedDataOf (fun _ => none) "no braces here") "competitors" =
        none from rfl] at he
      exact Option.noConfusion he)

/-- C5: when the response contains no brace block, or its brace block is not
valid JSON (JSON.parse throws), parseBrandAnalysis returns the pure text
fallback: brandMentioned is the case-insensitive substring occurrence of the
brand name, position is the first number matched by the position regex (null
when none), confidence is the first number matched by the confidence regex
(50 when none), context is the trimmed window around the brand occurrence,
and the competitors list is empty. -/
theorem parseBrandAnalysis_fallback
    (jp : List Char → Option (List (String × Json)))
    (content keyword brandName : String)
    (h : ∀ block, jsonBlock content.data = some block → jp block = none) :
    parseBrandAnalysis jp content keyword brandName =
      Except.ok
        { keyword := keyword
          brandMentioned :=
            Json.bool (containsL (toLowerL content.data) (toLowerL brandName.data))
          position := jsonOfOptNat (extractPosition content)
          confidence := Json.num (extractConfidence content)
          context := Json.str (extractContext content brandName)
          competitors := [] } := by
  have hpd : parsedDataOf jp content = [] := by
    unfold parsedDataOf
    cases hb : jsonBlock content.data with
    | none => rfl
    | some block =>
      show (match jp block with
            | some fields => fields
            | none => []) = ([] : List (String × Json))
      rw [h block hb]
  unfold parseBrandAnalysis
  rw [hpd]
  rfl

/-- Mapping an enumerated list and then projecting componentwise is a plain
map over the underlying list. -/
theorem enumFrom_map_ext {α β γ : Type _} (f : Nat × α → β) (g : β → γ) (h : α → γ)
    (hfg : ∀ i a, g (f (i, a)) = h a) :
    ∀ (l : List α) (n : Nat), ((List.enumFrom n l).map f).map g = l.map h := by
  intro l
  induction l with
  | nil => intro n; rfl
  | cons a t ih =>
    intro n
    simp only [List.enumFrom, List.map_cons, hfg, ih]

/-- The dates of the generated points are consecutive days from the start. -/
theorem genPoints_dates (pv mv : Nat → Nat → Int) (sv : Nat → Nat → Rat)
    (index : Nat) (startDay : Int) (competitor : String) :
    ∀ (n : Nat) (cur : Int),
      (genPoints pv mv sv index startDay competitor n cur).map TrendPoint.date =
        (List.range n).map (fun (i : Nat) => cur + (i : Int)) := by
  intro n
  induction n with
  | zero => intro cur; rfl
  | succ m ih =>
    intro cur
    rw [List.range_succ_eq_map]
    simp only [genPoints, List.map_cons, List.map_map]
    congr 1
    · simp [samplePoint]
    · rw [ih (cur + 1)]
      apply List.map_congr_left
      intro i _
      simp [Function.comp]
      ring

/-- The generated series has one point per day from today minus N through
today. -/
theorem generateSample_dates (pv mv : Nat → Nat → Int) (sv : Nat → Nat → Rat)
    (index : Nat) (competitor : String) (N : Nat) (today : Int) :
    (generateSampleHistoricalData pv mv sv (today - (N : Int)) today competitor index).map
        TrendPoint.date =
      (List.range (N + 1)).map (fun (i : Nat) => today - (N : Int) + (i : Int)) := by
  have hle : today - (N : Int) ≤ today := by omega
  unfold generateSampleHistoricalData
  rw [if_pos hle]
  have hcount : (today - (today - (N : Int))).toNat = N := by omega
  rw [hcount]
  exact genPoints_dates pv mv sv index (today - (N : Int)) competitor (N + 1)
    (today - (N : Int))

/-- C6: getHistoricalData reads nothing from the snapshot store (its output
is the same for any two stores), returns exactly one trend entry per
requested competitor name — defaulting to Competitor A, B, C when none are
given — and each entry's data series is generated sample data with exactly
one point per day from today minus the timeRange's day count through today. -/
theorem getHistoricalData_sample_only (store store2 : List HistoricalSnapshot)
    (pv mv : Nat → Nat → Int) (sv : Nat → Nat → Rat) (today : Int)
    (pid kid : String) (tr : TimeRange) (competitors : Option (List String)) :
    getHistoricalData store pv mv sv today pid kid tr competitors =
      getHistoricalData store2 pv mv sv today pid kid tr competitors ∧
    (getHistoricalData store pv mv sv today pid kid tr competitors).map
        CompetitorTrendData.competitor =
      competitors.getD ["Competitor A", "Competitor B", "Competitor C"] ∧
    (getHistoricalData store pv mv sv today pid kid tr competitors).map
        (fun (e : CompetitorTrendData) => e.data.map TrendPoint.date) =
      (competitors.getD ["Competitor A", "Competitor B", "Competitor C"]).map
        (fun _ => (List.range (daysOf tr + 1)).map
          (fun (i : Nat) => today - (daysOf tr : Int) + (i : Int))) := by
  refine ⟨rfl, ?_, ?_⟩
  · refine (enumFrom_map_ext _ CompetitorTrendData.competitor (fun a => a)
      (fun i a => rfl)
      (competitors.getD ["Competitor A", "Competitor B", "Competitor C"]) 0).trans ?_
    simp
  · exact enumFrom_map_ext _ (fun (e : CompetitorTrendData) => e.data.map TrendPoint.date)
      (fun _ => (List.range (daysOf tr + 1)).map
        (fun (i : Nat) => today - (daysOf tr : Int) + (i : Int)))
      (fun i a => generateSample_dates pv mv sv i a (daysOf tr) today)
      (competitors.getD ["Competitor A", "Competitor B", "Competitor C"]) 0

/-- Witness for C5: a concrete braceless response falls back to text
scraping and yields the expected mention, rank, confidence and context. -/
theorem parseBrandAnalysis_fallback_witness :
    parseBrandAnalysis (fun _ => none) "Acme has rank 3 and confidence: 80"
        "kw" "Acme" =
      Except.ok
        { keyword := "kw"
          brandMentioned := Json.bool true
          position := Json.num 3
          confidence := Json.num 80
          context := Json.str "Acme has rank 3 and confidence: 80"
          competitors := [] } := by
  rw [parseBrandAnalysis_fallback (fun _ => none)
    "Acme has rank 3 and confidence: 80" "kw" "Acme" (fun _ _ => rfl)]
  rfl

/-- The limiter run and the reference behaviour agree: pruning only ever
discards timestamps that are already outside every later window.  st is the
limiter's store, h the full allowed history, and m a lower bound on the
remaining call times. -/
theorem rlRun_eq_rlSpec (maxR : Nat) (W : Int) :
    ∀ (trace : List (String × Int)) (st h : String → List Int) (m : Int),
      (∀ k (T : Int), m ≤ T →
        (st k).filter (fun u => decide (T - W < u)) =
          (h k).filter (fun u => decide (T - W < u))) →
      (∀ p ∈ trace, m ≤ p.2) →
      trace.Pairwise (fun a b => a.2 ≤ b.2) →
      (rlRun maxR W st trace).1 = rlSpec maxR W h trace := by
  intro trace
  induction trace with
  | nil => intro st h m _ _ _; rfl
  | cons c rest ih =>
    obtain ⟨k, t⟩ := c
    intro st h m hInv hm hmono
    have hmt : m ≤ t := hm (k, t) (List.mem_cons_self _ _)
    have hrest := (List.pairwise_cons.mp hmono).2
    have hall : ∀ p ∈ rest, t ≤ p.2 :=
      fun p hp => (List.pairwise_cons.mp hmono).1 p hp
    have hrec : (st k).filter (fun u => decide (t - W < u)) =
        (h k).filter (fun u => decide (t - W < u)) := hInv k t hmt
    have hlen : ((st k).filter (fun u => decide (t - W < u))).length =
        (h k).countP (fun u => decide (t - W < u)) := by
      rw [hrec, ← List.countP_eq_length_filter]
    have hrunl : (rlRun maxR W st ((k, t) :: rest)).1 =
        (rlStep maxR W st k t).1 ::
          (rlRun maxR W (rlStep maxR W st k t).2 rest).1 := rfl
    have hspecl : rlSpec maxR W h ((k, t) :: rest) =
        decide ((h k).countP (fun u => decide (t - W < u)) < maxR) ::
          rlSpec maxR W
            (if decide ((h k).countP (fun u => decide (t - W < u)) < maxR) then
              (fun k2 => if k2 = k then h k2 ++ [t] else h k2) else h) rest := rfl
    by_cases hc : (h k).countP (fun u => decide (t - W < u)) < maxR
    · have hcond : ¬ maxR ≤ ((st k).filter (fun u => decide (t - W < u))).length := by
        omega
      have hstep : rlStep maxR W st k t =
          (true, fun k2 => if k2 = k then
            (st k).filter (fun u => decide (t - W < u)) ++ [t] else st k2) := by
        simp only [rlStep]
        rw [if_neg hcond]
      have htail : (rlRun maxR W (fun k2 => if k2 = k then
            (st k).filter (fun u => decide (t - W < u)) ++ [t] else st k2) rest).1 =
          rlSpec maxR W (fun k2 => if k2 = k then h k2 ++ [t] else h k2) rest := by
        apply ih _ _ t _ hall hrest
        intro k2 T hT
        by_cases hk2 : k2 = k
        · subst hk2
          simp only [eq_self_iff_true, if_true]
          rw [List.filter_append, List.filter_append, List.filter_filter]
          have hmix : (st k2).filter
              (fun a => decide (T - W < a) && decide (t - W < a)) =
              (st k2).filter (fun a => decide (T - W < a)) := by
            apply List.filter_congr
            intro a _
            by_cases hTa : T - W < a
            · have hta : t - W < a := by omega
              simp [hTa, hta]
            · simp [hTa]
          rw [hmix, hInv k2 T (le_trans hmt hT)]
        · simp only [if_neg hk2]
          exact hInv k2 T (le_trans hmt hT)
      rw [hrunl, hspecl, hstep, decide_eq_true hc, if_pos rfl]
      exact congrArg (List.cons true) htail
    · have hcond : maxR ≤ ((st k).filter (fun u => decide (t - W < u))).length := by
        omega
      have hstep : rlStep maxR W st k t = (false, st) := by
        simp only [rlStep]
        rw [if_pos hcond]
      have htail : (rlRun maxR W st rest).1 = rlSpec maxR W h rest := by
        apply ih st h t _ hall hrest
        intro k2 T hT
        exact hInv k2 T (le_trans hmt hT)
      rw [hrunl, hspecl, hstep, decide_eq_false hc, if_neg (by simp)]
      exact congrArg (List.cons false) htail

/-- Appending each allowed call keeps every length-windowMs interval at or
below maxRequests, because the admission gate counts at least the calls of
any interval that contains the new timestamp. -/
theorem rlSpec_window_bound (maxR : Nat) (W : Int) :
    ∀ (trace : List (String × Int)) (h : String → List Int),
      (∀ (k : String) (T : Int),
        (h k).countP (fun u => decide (T ≤ u) && decide (u < T + W)) ≤ maxR) →
      ∀ (key : String) (T : Int),
        ((h key ++ allowedTimes key trace (rlSpec maxR W h trace)).countP
          (fun u => decide (T ≤ u) && decide (u < T + W))) ≤ maxR := by
  intro trace
  induction trace with
  | nil =>
    intro h hJ key T
    simpa [allowedTimes, rlSpec] using hJ key T
  | cons c rest ih =>
    obtain ⟨k, t⟩ := c
    intro h hJ key T
    by_cases hok : (h k).countP (fun u => decide (t - W < u)) < maxR
    · have hspecl : rlSpec maxR W h ((k, t) :: rest) =
          true :: rlSpec maxR W (fun k2 => if k2 = k then h k2 ++ [t] else h k2) rest := by
        show (decide ((h k).countP (fun u => decide (t - W < u)) < maxR) ::
          rlSpec maxR W
            (if decide ((h k).countP (fun u => decide (t - W < u)) < maxR) then
              (fun k2 => if k2 = k then h k2 ++ [t] else h k2) else h) rest) = _
        rw [decide_eq_true hok, if_pos rfl]
      have hJ' : ∀ (k2 : String) (T2 : Int),
          ((if k2 = k then h k2 ++ [t] else h k2).countP
            (fun u => decide (T2 ≤ u) && decide (u < T2 + W))) ≤ maxR := by
        intro k2 T2
        by_cases hk2 : k2 = k
        · subst hk2
          rw [if_pos rfl, List.countP_append]
          by_cases hwin : (decide (T2 ≤ t) && decide (t < T2 + W)) = true
          · rw [Bool.and_eq_true, decide_eq_true_eq, decide_eq_true_eq] at hwin
            have h1 : (h k2).countP (fun u => decide (T2 ≤ u) && decide (u < T2 + W)) ≤
                (h k2).countP (fun u => decide (t - W < u)) := by
              apply List.countP_mono_left
              intro a _ ha
              rw [Bool.and_eq_true, decide_eq_true_eq, decide_eq_true_eq] at ha
              exact decide_eq_true (by omega)
            have h2 : List.countP (fun u => decide (T2 ≤ u) && decide (u < T2 + W)) [t] ≤ 1 := by
              by_cases hsplit : (decide (T2 ≤ t) && decide (t < T2 + W)) = true
              · simp [List.countP_cons, hsplit]
              · simp [List.countP_cons, hsplit]
            omega
          · have h2 : List.countP (fun u => decide (T2 ≤ u) && decide (u < T2 + W)) [t] = 0 := by
              simp only [List.countP_cons, List.countP_nil]
              simp [hwin]
            have := hJ k2 T2
            omega
        · rw [if_neg hk2]
          exact hJ k2 T2
      rw [hspecl]
      by_cases hkey : k = key
      · subst hkey
        have hat : allowedTimes k ((k, t) :: rest)
            (true :: rlSpec maxR W (fun k2 => if k2 = k then h k2 ++ [t] else h k2) rest) =
            t :: allowedTimes k rest
              (rlSpec maxR W (fun k2 => if k2 = k then h k2 ++ [t] else h k2) rest) := by
          simp [allowedTimes]
        rw [hat]
        have hih := ih (fun k2 => if k2 = k then h k2 ++ [t] else h k2) hJ' k T
        rw [if_pos rfl, List.append_assoc] at hih
        simpa using hih
      · have hat : allowedTimes key ((k, t) :: rest)
            (true :: rlSpec maxR W (fun k2 => if k2 = k then h k2 ++ [t] else h k2) rest) =
            allowedTimes key rest
              (rlSpec maxR W (fun k2 => if k2 = k then h k2 ++ [t] else h k2) rest) := by
          simp [allowedTimes, hkey]
        rw [hat]
        have hih := ih (fun k2 => if k2 = k then h k2 ++ [t] else h k2) hJ' key T
        rw [if_neg (fun hkk => hkey hkk.symm)] at hih
        exact hih
    · have hspecl : rlSpec maxR W h ((k, t) :: rest) =
          false :: rlSpec maxR W h rest := by
        show (decide ((h k).countP (fun u => decide (t - W < u)) < maxR) ::
          rlSpec maxR W
            (if decide ((h k).countP (fun u => decide (t - W < u)) < maxR) then
              (fun k2 => if k2 = k then h k2 ++ [t] else h k2) else h) rest) = _
        rw [decide_eq_false hok, if_neg (by simp)]
      rw [hspecl]
      have hat : allowedTimes key ((k, t) :: rest) (false :: rlSpec maxR W h rest) =
          allowedTimes key rest (rlSpec maxR W h rest) := by
        simp [allowedTimes]
      rw [hat]
      exact ih h hJ key T

/-- C8: over any time-ordered call trace starting from a fresh limiter, a
call returns true iff strictly fewer than maxRequests earlier true-returning
calls for the same key have timestamps within the preceding windowMs; and
consequently any interval of length windowMs contains at most maxRequests
true-returning calls per key. -/
theorem createRateLimiter_correct (maxR : Nat) (W : Int)
    (trace : List (String × Int))
    (hmono : trace.Pairwise (fun a b => a.2 ≤ b.2)) :
    (rlRun maxR W (fun _ => []) trace).1 = rlSpec maxR W (fun _ => []) trace ∧
    ∀ (key : String) (T : Int),
      ((allowedTimes key trace (rlRun maxR W (fun _ => []) trace).1).countP
        (fun u => decide (T ≤ u) && decide (u < T + W))) ≤ maxR := by
  have h1 : (rlRun maxR W (fun _ => []) trace).1 = rlSpec maxR W (fun _ => []) trace := by
    cases trace with
    | nil => rfl
    | cons c rest =>
      apply rlRun_eq_rlSpec maxR W (c :: rest) _ _ c.2
      · intro k T _
        rfl
      · intro p hp
        rcases List.mem_cons.mp hp with hp | hp
        · rw [hp]
        · exact (List.pairwise_cons.mp hmono).1 p hp
      · exact hmono
  refine ⟨h1, ?_⟩
  intro key T
  rw [h1]
  have hb := rlSpec_window_bound maxR W trace (fun _ => []) (fun k T2 => by simp) key T
  simpa using hb

/-- Witness for C8: one request per 10ms window; the second call inside the
window is refused, at most one allowed call lands in the interval from 0. -/
theorem createRateLimiter_correct_witness :
    (rlRun 1 10 (fun _ => []) [("a", 0), ("a", 5), ("a", 20)]).1 =
      rlSpec 1 10 (fun _ => []) [("a", 0), ("a", 5), ("a", 20)] ∧
    ((allowedTimes "a" [("a", 0), ("a", 5), ("a", 20)]
        (rlRun 1 10 (fun _ => []) [("a", 0), ("a", 5), ("a", 20)]).1).countP
      (fun u => decide ((0 : Int) ≤ u) && decide (u < 0 + 10))) ≤ 1 := by
  have h := createRateLimiter_correct 1 10 [("a", 0), ("a", 5), ("a", 20)]
    (by decide)
  exact ⟨h.1, h.2 "a" 0⟩
